/-
Verification of the letterboxd-for-obsidian merge engine, entry renderer and
sync command guard against their natural-language specification.

The embedding models the vault.process merge callback, the front-matter
handling, starParser, printOut and the sync command's username guard from
src (main plugin file).  JavaScript strings are modelled as Lean String;
String.prototype.split(c) / Array.prototype.join(c) are modelled by
splitCh / joinCh on the underlying character lists (structural recursion,
so every definition is executable and kernel-reducible).
-/
import Mathlib

namespace Letterboxd

/-- Model of JavaScript String.prototype.split with a single-character
separator: "".split(c) = [""], and every separator occurrence produces a
new (possibly empty) piece. -/
def splitCh (sep : Char) : List Char → List (List Char)
  | [] => [[]]
  | c :: cs =>
    match splitCh sep cs with
    | [] => [[]]
    | p :: ps => if c = sep then [] :: p :: ps else (c :: p) :: ps

/-- Model of JavaScript Array.prototype.join with a single-character
separator. -/
def joinCh (sep : Char) : List (List Char) → List Char
  | [] => []
  | [p] => p
  | p :: q :: ps => p ++ sep :: joinCh sep (q :: ps)

theorem splitCh_ne_nil (sep : Char) (l : List Char) : splitCh sep l ≠ [] := by
  induction l with
  | nil => simp [splitCh]
  | cons c cs ih =>
    simp only [splitCh]
    rcases h : splitCh sep cs with _ | ⟨p, ps⟩
    · simp
    · by_cases hc : c = sep <;> simp [hc]

theorem joinCh_splitCh (sep : Char) (l : List Char) :
    joinCh sep (splitCh sep l) = l := by
  induction l with
  | nil => rfl
  | cons c cs ih =>
    simp only [splitCh]
    rcases h : splitCh sep cs with _ | ⟨p, ps⟩
    · exact absurd h (splitCh_ne_nil sep cs)
    · rw [h] at ih
      by_cases hc : c = sep

      · subst hc
        simp only [if_pos rfl, joinCh, List.nil_append]
        rw [ih]
      · simp only [if_neg hc]
        cases ps with
        | nil =>
          simp only [joinCh] at ih ⊢
          rw [ih]
        | cons q qs =>
          simp only [joinCh] at ih ⊢
          rw [List.cons_append, ih]

theorem not_sep_mem_of_mem_splitCh (sep : Char) :
    ∀ (l : List Char) (p : List Char), p ∈ splitCh sep l → sep ∉ p := by
  intro l
  induction l with
  | nil =>
    intro p hp
    simp [splitCh] at hp
    subst hp; simp
  | cons c cs ih =>
    intro p hp
    simp only [splitCh] at hp
    rcases h : splitCh sep cs with _ | ⟨q, qs⟩
    · exact absurd h (splitCh_ne_nil sep cs)
    · rw [h] at hp
      by_cases hc : c = sep
      · simp only [if_pos hc, List.mem_cons] at hp
        rcases hp with h1 | h1 | h1
        · subst h1; simp
        · exact ih p (by rw [h]; exact h1 ▸ List.mem_cons_self q qs)
        · exact ih p (by rw [h]; exact List.mem_cons_of_mem q h1)
      · simp only [if_neg hc, List.mem_cons] at hp
        rcases hp with h1 | h1
        · have hq : sep ∉ q := ih q (by rw [h]; exact List.mem_cons_self q qs)
          subst h1
          simp only [List.mem_cons, not_or]
          exact ⟨fun hcs => hc hcs.symm, hq⟩
        · exact ih p (by rw [h]; exact List.mem_cons_of_mem q h1)

theorem splitCh_of_not_mem (sep : Char) :
    ∀ (p : List Char), sep ∉ p → splitCh sep p = [p] := by
  intro p
  induction p with
  | nil => intro _; rfl
  | cons c cs ih =>
    intro h
    simp only [List.mem_cons, not_or] at h
    have hcs : ¬c = sep := fun hh => h.1 hh.symm
    simp only [splitCh, ih h.2]
    simp [hcs]

theorem splitCh_append_sep (sep : Char) :
    ∀ (p t : List Char), sep ∉ p →
      splitCh sep (p ++ sep :: t) = p :: splitCh sep t := by
  intro p
  induction p with
  | nil =>
    intro t _
    simp only [List.nil_append, splitCh]
    rcases h : splitCh sep t with _ | ⟨q, qs⟩
    · exact absurd h (splitCh_ne_nil sep t)
    · simp
  | cons c cs ih =>
    intro t h
    simp only [List.mem_cons, not_or] at h
    have hcs : ¬c = sep := fun hh => h.1 hh.symm
    have e1 : (c :: cs) ++ sep :: t = c :: (cs ++ sep :: t) := rfl
    rw [e1]
    simp only [splitCh]
    rw [ih t h.2]
    simp [hcs]

theorem splitCh_joinCh (sep : Char) :
    ∀ (ps : List (List Char)), ps ≠ [] → (∀ p ∈ ps, sep ∉ p) →
      splitCh sep (joinCh sep ps) = ps := by
  intro ps
  induction ps with
  | nil => intro h _; exact absurd rfl h
  | cons p qs ih =>
    intro _ hall
    cases qs with
    | nil =>
      simp only [joinCh]
      exact splitCh_of_not_mem sep p (hall p (List.mem_cons_self p []))
    | cons q qs2 =>
      simp only [joinCh]
      rw [splitCh_append_sep sep p (joinCh sep (q :: qs2))
        (hall p (List.mem_cons_self p (q :: qs2)))]
      rw [ih (by simp) (fun r hr => hall r (List.mem_cons_of_mem p hr))]

theorem joinCh_append (sep : Char) :
    ∀ (ps qs : List (List Char)), ps ≠ [] → qs ≠ [] →
      joinCh sep (ps ++ qs) = joinCh sep ps ++ sep :: joinCh sep qs := by
  intro ps
  induction ps with
  | nil => intro qs h _; exact absurd rfl h
  | cons p ps2 ih =>
    intro qs _ hqs
    cases ps2 with
    | nil =>
      cases qs with
      | nil => exact absurd rfl hqs
      | cons q qs2 => simp [joinCh]
    | cons p2 ps3 =>
      have h2 := ih qs (by simp) hqs
      have e1 : (p :: p2 :: ps3) ++ qs = p :: ((p2 :: ps3) ++ qs) := rfl
      rw [e1]
      have e2 : (p2 :: ps3) ++ qs = p2 :: (ps3 ++ qs) := rfl
      rw [e2] at h2
      show p ++ sep :: joinCh sep (p2 :: (ps3 ++ qs)) =
        (p ++ sep :: joinCh sep (p2 :: ps3)) ++ sep :: joinCh sep qs
      rw [h2]
      simp [List.append_assoc]

/-! String-level wrappers.  The plugin calls data.split('\n') and
arr.join('\n'); these are splitLines / joinLines below. -/

theorem data_mk (l : List Char) : (String.mk l).data = l := rfl

theorem mk_data (s : String) : String.mk s.data = s := by cases s; rfl

theorem str_ext {a b : String} (h : a.data = b.data) : a = b := by
  cases a; cases b; exact congrArg String.mk h

theorem data_append (a b : String) : (a ++ b).data = a.data ++ b.data := by
  cases a; cases b; rfl

theorem str_append_assoc (a b c : String) : (a ++ b) ++ c = a ++ (b ++ c) := by
  apply str_ext
  simp [data_append, List.append_assoc]

theorem str_append_empty (a : String) : a ++ "" = a := by
  apply str_ext
  simp [data_append]

theorem str_len_data (s : String) : s.length = s.data.length := rfl

/-- Model of data.split('\n') from the vault.process callback. -/
def splitLines (s : String) : List String :=
  (splitCh '\n' s.data).map String.mk

/-- Model of finalEntries.join('\n') from the vault.process callback. -/
def joinLines (xs : List String) : String :=
  String.mk (joinCh '\n' (xs.map String.data))

theorem splitLines_ne_nil (s : String) : splitLines s ≠ [] := by
  simp only [splitLines, ne_eq, List.map_eq_nil_iff]
  exact splitCh_ne_nil '\n' s.data

theorem joinLines_splitLines (s : String) : joinLines (splitLines s) = s := by
  simp only [joinLines, splitLines, List.map_map]
  have : (String.data ∘ String.mk) = id := by
    funext l; rfl
  rw [this, List.map_id, joinCh_splitCh]

theorem mem_splitLines_no_newline (s : String) :
    ∀ p ∈ splitLines s, '\n' ∉ p.data := by
  intro p hp
  simp only [splitLines, List.mem_map] at hp
  obtain ⟨q, hq, rfl⟩ := hp
  exact not_sep_mem_of_mem_splitCh '\n' s.data q hq

theorem splitLines_joinLines (xs : List String) (hne : xs ≠ [])
    (h : ∀ x ∈ xs, '\n' ∉ x.data) : splitLines (joinLines xs) = xs := by
  simp only [splitLines, joinLines, data_mk]
  rw [splitCh_joinCh '\n' (xs.map String.data)
    (by simpa using hne)
    (by intro p hp
        simp only [List.mem_map] at hp
        obtain ⟨x, hx, rfl⟩ := hp
        exact h x hx)]
  simp only [List.map_map]
  have : (String.mk ∘ String.data) = id := by
    funext x; exact mk_data x
  rw [this, List.map_id]

theorem joinLines_append (xs ys : List String) (hxs : xs ≠ []) (hys : ys ≠ []) :
    joinLines (xs ++ ys) = joinLines xs ++ "\n" ++ joinLines ys := by
  apply str_ext
  simp only [joinLines, data_mk, data_append, List.map_append]
  rw [joinCh_append '\n' (xs.map String.data) (ys.map String.data)
    (by simpa using hxs) (by simpa using hys)]
  simp

/-! Front-matter detection and the merge engine (vault.process callback). -/

/-- Scan a line list for the first occurrence of the front-matter delimiter,
returning the lines before it and the lines after it. -/
def findBlock : List String → Option (List String × List String)
  | [] => none
  | x :: xs =>
    if x = "---" then some ([], xs)
    else (findBlock xs).map (fun p => (x :: p.1, p.2))

/-- Modelled from the spec: the host application's processFrontMatter call
(followed by objToFrontmatter) is code outside this repository; spec section
4.1 step 2 describes its effect as extracting, verbatim, the lines from the
first delimiter through the second (inclusive) when the first line is the
delimiter, and extracting nothing when no second delimiter exists.  This
returns the block's lines, or none when there is no metadata block. -/
def extractFMList : List String → Option (List String)
  | [] => none
  | first :: rest =>
    if first = "---" then
      (findBlock rest).map (fun p => ("---" :: p.1) ++ ["---"])
    else none

/-- The frontMatter string used by the merge: the metadata block's lines
joined by newline followed by a trailing newline (objToFrontmatter always
ends its output with the closing delimiter line and a newline), or the
empty string when the file has no metadata block. -/
def extractFrontMatter (data : String) : String :=
  match extractFMList (splitLines data) with
  | some block => joinLines block ++ "\n"
  | none => ""

/-- Model of the while/shift loop in the vault.process callback: repeatedly
remove the first line, counting delimiter lines, and stop after the second
delimiter (or when the array is exhausted). -/
def skipFrontMatter : Nat → List String → List String
  | _, [] => []
  | count, x :: rest =>
    if x = "---" then
      if count + 1 = 2 then rest else skipFrontMatter (count + 1) rest
    else skipFrontMatter count rest

/-- Model of diaryContentsArr after the optional front-matter skip. -/
def diaryContentsArr (frontMatter : String) (data : String) : List String :=
  if frontMatter.length ≠ 0 then skipFrontMatter 0 (splitLines data)
  else splitLines data

/-- Model of newEntries: diaryMdArr filtered to lines not in the existing
content set (exact string equality, as with the JavaScript Set). -/
def newEntries (frontMatter : String) (diaryMdArr : List String)
    (data : String) : List String :=
  diaryMdArr.filter (fun entry => !((diaryContentsArr frontMatter data).contains entry))

/-- Model of finalEntries: append new entries for the Old (ascending) sort,
prepend them otherwise. -/
def finalEntries (frontMatter : String) (diaryMdArr : List String)
    (sortOld : Bool) (data : String) : List String :=
  if sortOld then diaryContentsArr frontMatter data ++ newEntries frontMatter diaryMdArr data
  else newEntries frontMatter diaryMdArr data ++ diaryContentsArr frontMatter data

/-- Model of the vault.process callback body: the string returned to
overwrite the diary file. -/
def mergeProcess (frontMatter : String) (diaryMdArr : List String)
    (sortOld : Bool) (data : String) : String :=
  if frontMatter.length ≠ 0 then
    frontMatter ++ joinLines (finalEntries frontMatter diaryMdArr sortOld data)
  else joinLines (finalEntries frontMatter diaryMdArr sortOld data)

/-- The full merge for an existing file: front matter is computed from the
current contents, then the vault.process callback rewrites the file. -/
def merge (diaryMdArr : List String) (sortOld : Bool) (data : String) : String :=
  mergeProcess (extractFrontMatter data) diaryMdArr sortOld data

/-! Characterization lemmas for findBlock and extractFrontMatter. -/

theorem findBlock_eq_some :
    ∀ (l mid after : List String), findBlock l = some (mid, after) →
      l = mid ++ "---" :: after ∧ "---" ∉ mid := by
  intro l
  induction l with
  | nil => intro mid after h; simp [findBlock] at h
  | cons x xs ih =>
    intro mid after h
    simp only [findBlock] at h
    by_cases hx : x = "---"
    · rw [if_pos hx] at h
      simp only [Option.some.injEq, Prod.mk.injEq] at h
      obtain ⟨rfl, rfl⟩ := h
      subst hx
      simp
    · rw [if_neg hx] at h
      rcases hfb : findBlock xs with _ | ⟨m2, a2⟩
      · rw [hfb] at h; simp at h
      · rw [hfb] at h
        simp only [Option.map_some', Option.some.injEq, Prod.mk.injEq] at h
        obtain ⟨h1, h2⟩ := h
        subst h2
        rw [← h1]
        obtain ⟨e1, e2⟩ := ih m2 a2 hfb
        constructor
        · rw [List.cons_append, ← e1]
        · simp only [List.mem_cons, not_or]
          exact ⟨fun hc => hx hc.symm, e2⟩

theorem findBlock_eq_none (l : List String) (h : "---" ∉ l) :
    findBlock l = none := by
  induction l with
  | nil => rfl
  | cons x xs ih =>
    simp only [List.mem_cons, not_or] at h
    have hxs : ¬x = "---" := fun hh => h.1 hh.symm
    simp only [findBlock, if_neg hxs, ih h.2, Option.map_none']

theorem not_mem_of_findBlock_none :
    ∀ (l : List String), findBlock l = none → "---" ∉ l := by
  intro l
  induction l with
  | nil => intro _; simp
  | cons x xs ih =>
    intro h
    simp only [findBlock] at h
    by_cases hx : x = "---"
    · rw [if_pos hx] at h; exact Option.noConfusion h
    · rw [if_neg hx] at h
      rcases hfb : findBlock xs with _ | p
      · simp only [List.mem_cons, not_or]
        exact ⟨fun hc => hx hc.symm, ih hfb⟩
      · rw [hfb] at h; simp at h

theorem findBlock_append (mid after : List String) (h : "---" ∉ mid) :
    findBlock (mid ++ "---" :: after) = some (mid, after) := by
  induction mid with
  | nil => simp [findBlock]
  | cons x xs ih =>
    simp only [List.mem_cons, not_or] at h
    have hxs : ¬x = "---" := fun hh => h.1 hh.symm
    simp only [List.cons_append, findBlock, if_neg hxs, List.append_eq,
      ih h.2, Option.map_some']

theorem extractFM_empty_of_first_ne (data : String) (first : String)
    (rest : List String) (hsplit : splitLines data = first :: rest)
    (h : first ≠ "---") : extractFrontMatter data = "" := by
  simp [extractFrontMatter, extractFMList, hsplit, if_neg h]

theorem extractFM_empty_of_no_second (data : String) (rest : List String)
    (hsplit : splitLines data = "---" :: rest) (h : "---" ∉ rest) :
    extractFrontMatter data = "" := by
  simp [extractFrontMatter, extractFMList, hsplit, findBlock_eq_none rest h]

theorem extractFM_of_block (data : String) (mid after : List String)
    (hsplit : splitLines data = "---" :: (mid ++ "---" :: after))
    (hmid : "---" ∉ mid) :
    extractFrontMatter data = joinLines (("---" :: mid) ++ ["---"]) ++ "\n" := by
  simp [extractFrontMatter, extractFMList, hsplit, findBlock_append mid after hmid]

/-- Case analysis on the metadata block of a file: either there is no block
(front matter is empty), or the split lines have the delimited shape. -/
theorem extractFM_cases (data : String) :
    extractFrontMatter data = "" ∨
      ∃ mid after, splitLines data = "---" :: (mid ++ "---" :: after) ∧
        "---" ∉ mid ∧
        extractFrontMatter data = joinLines (("---" :: mid) ++ ["---"]) ++ "\n" := by
  rcases hsplit : splitLines data with _ | ⟨first, rest⟩
  · exact absurd hsplit (splitLines_ne_nil data)
  · by_cases hf : first = "---"
    · subst hf
      rcases hfb : findBlock rest with _ | ⟨mid, after⟩
      · left
        exact extractFM_empty_of_no_second data rest hsplit
          (not_mem_of_findBlock_none rest hfb)
      · right
        obtain ⟨h1, h2⟩ := findBlock_eq_some rest mid after hfb
        have hs2 : splitLines data = "---" :: (mid ++ "---" :: after) :=
          hsplit.trans (congrArg (fun l => "---" :: l) h1)
        exact ⟨mid, after, congrArg (fun l => "---" :: l) h1, h2,
          extractFM_of_block data mid after hs2 h2⟩
    · left; exact extractFM_empty_of_first_ne data first rest hsplit hf

/-! Behaviour of the front-matter skip loop. -/

theorem skipFM_after_first (after : List String) :
    ∀ (mid : List String), "---" ∉ mid →
      skipFrontMatter 1 (mid ++ "---" :: after) = after := by
  intro mid
  induction mid with
  | nil =>
    intro _
    simp [skipFrontMatter]
  | cons x xs ih =>
    intro h
    simp only [List.mem_cons, not_or] at h
    have hxs : ¬x = "---" := fun hh => h.1 hh.symm
    simp only [List.cons_append, skipFrontMatter, if_neg hxs]
    exact ih h.2

theorem skipFM_block (mid after : List String) (h : "---" ∉ mid) :
    skipFrontMatter 0 ("---" :: (mid ++ "---" :: after)) = after := by
  simp only [skipFrontMatter, if_pos rfl]
  norm_num
  exact skipFM_after_first after mid h

theorem skipFM_sublist : ∀ (count : Nat) (l : List String),
    List.Sublist (skipFrontMatter count l) l := by
  intro count l
  induction l generalizing count with
  | nil => simp [skipFrontMatter]
  | cons x xs ih =>
    simp only [skipFrontMatter]
    by_cases hx : x = "---"
    · rw [if_pos hx]
      by_cases hc : count + 1 = 2
      · rw [if_pos hc]; exact List.sublist_cons_self x xs
      · rw [if_neg hc]; exact (ih (count + 1)).cons x
    · rw [if_neg hx]; exact (ih count).cons x

/-! Basic facts about the front-matter guard (frontMatter.length truthiness). -/

theorem length_empty_str : ("" : String).length = 0 := rfl

theorem length_append_newline_ne (s : String) : (s ++ "\n").length ≠ 0 := by
  rw [str_len_data, data_append]
  simp

/-- With empty front matter the working array is just the split contents. -/
theorem diaryContentsArr_empty_fm (data : String) :
    diaryContentsArr "" data = splitLines data := by
  simp [diaryContentsArr, length_empty_str]

theorem merge_eq_no_fm (diaryMdArr : List String) (sortOld : Bool)
    (data : String) (h : extractFrontMatter data = "") :
    merge diaryMdArr sortOld data =
      joinLines (finalEntries "" diaryMdArr sortOld data) := by
  simp [merge, mergeProcess, h, length_empty_str]

theorem merge_eq_fm (diaryMdArr : List String) (sortOld : Bool)
    (data : String) (fm : String) (h : extractFrontMatter data = fm)
    (hlen : fm.length ≠ 0) :
    merge diaryMdArr sortOld data =
      fm ++ joinLines (finalEntries fm diaryMdArr sortOld data) := by
  simp [merge, mergeProcess, h, hlen]

/-- Every element of the working array is a line of the original split. -/
theorem diaryContentsArr_sublist (fm data : String) :
    List.Sublist (diaryContentsArr fm data) (splitLines data) := by
  unfold diaryContentsArr
  by_cases h : fm.length ≠ 0
  · rw [if_pos h]; exact skipFM_sublist 0 (splitLines data)
  · rw [if_neg h]

/-- New entries always come from diaryMdArr, in order. -/
theorem newEntries_sublist (fm : String) (diaryMdArr : List String)
    (data : String) :
    List.Sublist (newEntries fm diaryMdArr data) diaryMdArr :=
  List.filter_sublist diaryMdArr

/-- A line already present in the working array is never a new entry. -/
theorem not_mem_newEntries (fm : String) (diaryMdArr : List String)
    (data : String) (x : String) (hx : x ∈ diaryContentsArr fm data) :
    x ∉ newEntries fm diaryMdArr data := by
  intro hmem
  unfold newEntries at hmem
  rw [List.mem_filter] at hmem
  have := hmem.2
  simp at this
  exact this hx

/-- Every line of diaryMdArr ends up in the final entries. -/
theorem mem_finalEntries_of_mem (fm : String) (diaryMdArr : List String)
    (sortOld : Bool) (data : String) (x : String) (hx : x ∈ diaryMdArr) :
    x ∈ finalEntries fm diaryMdArr sortOld data := by
  unfold finalEntries
  by_cases hmem : x ∈ diaryContentsArr fm data
  · cases sortOld <;> simp [hmem]
  · have : x ∈ newEntries fm diaryMdArr data := by
      unfold newEntries
      rw [List.mem_filter]
      refine ⟨hx, ?_⟩
      simp [hmem]
    cases sortOld <;> simp [this]

/-- Existing working lines are kept in the final entries. -/
theorem mem_finalEntries_of_mem_contents (fm : String) (diaryMdArr : List String)
    (sortOld : Bool) (data : String) (x : String)
    (hx : x ∈ diaryContentsArr fm data) :
    x ∈ finalEntries fm diaryMdArr sortOld data := by
  unfold finalEntries
  cases sortOld <;> simp [hx]

/-! Claims about deduplication, delimiter handling and splice order. -/

/-- Claim C2: deduplication.  For every existing file and every rendered
line L present verbatim among the existing body lines, merging a newLines
sequence containing L does not duplicate L: the number of occurrences of L
among the merged entries equals its number of occurrences in the existing
body, because only lines not already present are added. -/
theorem merge_dedups_existing_line (diaryMdArr : List String) (sortOld : Bool)
    (data L : String)
    (hL : L ∈ diaryContentsArr (extractFrontMatter data) data)
    (hN : L ∈ diaryMdArr) :
    (finalEntries (extractFrontMatter data) diaryMdArr sortOld data).count L
      = (diaryContentsArr (extractFrontMatter data) data).count L := by
  have hzero : (newEntries (extractFrontMatter data) diaryMdArr data).count L = 0 :=
    List.count_eq_zero.mpr
      (not_mem_newEntries (extractFrontMatter data) diaryMdArr data L hL)
  unfold finalEntries
  cases sortOld <;> simp [List.count_append, hzero]

/-- Witness for C2, spec Scenario B: existing file "L0", new lines
["L0", "L1"], ascending sort: output is "L0\nL1" and L0 is not
duplicated. -/
theorem merge_dedups_existing_line_witness :
    merge ["L0", "L1"] true "L0" = "L0\nL1" ∧
    (finalEntries (extractFrontMatter "L0") ["L0", "L1"] true "L0").count "L0"
      = (diaryContentsArr (extractFrontMatter "L0") "L0").count "L0" :=
  ⟨by decide,
    merge_dedups_existing_line ["L0", "L1"] true "L0" "L0" (by decide) (by decide)⟩

/-- Claim C10 (implicit): deduplication applies only between the new lines
and the existing body, never within the new lines themselves.  When L is
absent from the existing body, every occurrence of L in diaryMdArr survives
into the final entries (duplicates included), and the surviving new entries
keep their relative order from diaryMdArr. -/
theorem dedup_not_within_newLines (diaryMdArr : List String) (sortOld : Bool)
    (data L : String)
    (h : L ∉ diaryContentsArr (extractFrontMatter data) data) :
    (finalEntries (extractFrontMatter data) diaryMdArr sortOld data).count L
      = diaryMdArr.count L ∧
    List.Sublist (newEntries (extractFrontMatter data) diaryMdArr data)
      diaryMdArr := by
  constructor
  · have h1 : (diaryContentsArr (extractFrontMatter data) data).count L = 0 :=
      List.count_eq_zero.mpr h
    have h2 : (newEntries (extractFrontMatter data) diaryMdArr data).count L
        = diaryMdArr.count L := by
      unfold newEntries
      apply List.count_filter
      simp [h]
    unfold finalEntries
    cases sortOld <;> simp [List.count_append, h1, h2]
  · exact newEntries_sublist (extractFrontMatter data) diaryMdArr data

/-- Witness for C10: new lines ["A", "A"] against existing content "X";
the line "A" is kept twice. -/
theorem dedup_not_within_newLines_witness :
    (finalEntries (extractFrontMatter "X") ["A", "A"] true "X").count "A"
      = (["A", "A"] : List String).count "A" ∧
    List.Sublist (newEntries (extractFrontMatter "X") ["A", "A"] "X")
      ["A", "A"] :=
  dedup_not_within_newLines ["A", "A"] true "X" "A" (by decide)

/-- Claim C4: when the first line is the delimiter but no second delimiter
occurrence exists, the merge treats the whole content as having no metadata
block: the front matter is empty, the working array is the full split
content (nothing is consumed), and every original line survives into the
final entries in order. -/
theorem no_second_delimiter_no_consumption (diaryMdArr : List String)
    (sortOld : Bool) (data : String) (rest : List String)
    (h1 : splitLines data = "---" :: rest) (h2 : "---" ∉ rest) :
    extractFrontMatter data = "" ∧
    diaryContentsArr (extractFrontMatter data) data = splitLines data ∧
    List.Sublist (splitLines data)
      (finalEntries (extractFrontMatter data) diaryMdArr sortOld data) := by
  have hE := extractFM_empty_of_no_second data rest h1 h2
  refine ⟨hE, ?_, ?_⟩
  · rw [hE]; exact diaryContentsArr_empty_fm data
  · rw [hE]
    unfold finalEntries
    rw [diaryContentsArr_empty_fm]
    cases sortOld <;>
      simp [List.sublist_append_left, List.sublist_append_right]

/-- Witness for C4 at the file "---\nL0" (opening delimiter, no closing
delimiter) merged with ["L1"]. -/
theorem no_second_delimiter_no_consumption_witness :
    extractFrontMatter "---\nL0" = "" ∧
    diaryContentsArr (extractFrontMatter "---\nL0") "---\nL0"
      = splitLines "---\nL0" ∧
    List.Sublist (splitLines "---\nL0")
      (finalEntries (extractFrontMatter "---\nL0") ["L1"] true "---\nL0") :=
  no_second_delimiter_no_consumption ["L1"] true "---\nL0" ["L0"]
    (by decide) (by decide)

/-- Claim C5: order respect.  Under ascending (Old) sort the filtered new
entries are appended after all existing body lines; under descending sort
they are prepended before them; and in both cases the existing body lines
appear in the result unaltered and in their original relative order. -/
theorem merge_order_respect (diaryMdArr : List String) (data : String)
    (sortOld : Bool) :
    finalEntries (extractFrontMatter data) diaryMdArr true data
      = diaryContentsArr (extractFrontMatter data) data
        ++ newEntries (extractFrontMatter data) diaryMdArr data ∧
    finalEntries (extractFrontMatter data) diaryMdArr false data
      = newEntries (extractFrontMatter data) diaryMdArr data
        ++ diaryContentsArr (extractFrontMatter data) data ∧
    List.Sublist (diaryContentsArr (extractFrontMatter data) data)
      (finalEntries (extractFrontMatter data) diaryMdArr sortOld data) := by
  refine ⟨by simp [finalEntries], by simp [finalEntries], ?_⟩
  unfold finalEntries
  cases sortOld <;>
    simp [List.sublist_append_left, List.sublist_append_right]

/-! Idempotence of the merge.  The merge is a fixed point on any contents
whose recomputed working array already contains every line of diaryMdArr
and which reassembles from its own front matter and working array. -/

theorem str_append_newline_ne_empty (s : String) : s ++ "\n" ≠ "" := by
  intro h
  have := congrArg String.data h
  simp [data_append] at this

theorem str_length_ne_zero_of_ne (s : String) (h : s ≠ "") : s.length ≠ 0 := by
  rw [str_len_data]
  intro hl
  exact h (str_ext (List.length_eq_zero.mp hl))

theorem merge_fixed (diaryMdArr : List String) (sortOld : Bool) (out : String)
    (h1 : ∀ l ∈ diaryMdArr, l ∈ diaryContentsArr (extractFrontMatter out) out)
    (h2 : extractFrontMatter out ≠ "" →
      out = extractFrontMatter out
        ++ joinLines (diaryContentsArr (extractFrontMatter out) out))
    (h3 : extractFrontMatter out = "" →
      out = joinLines (diaryContentsArr (extractFrontMatter out) out)) :
    merge diaryMdArr sortOld out = out := by
  have hne : newEntries (extractFrontMatter out) diaryMdArr out = [] := by
    unfold newEntries
    apply List.filter_eq_nil_iff.mpr
    intro a ha
    simp
    exact h1 a ha
  have hfe : finalEntries (extractFrontMatter out) diaryMdArr sortOld out
      = diaryContentsArr (extractFrontMatter out) out := by
    unfold finalEntries
    rw [hne]
    cases sortOld <;> simp
  by_cases hE : extractFrontMatter out = ""
  · rw [merge_eq_no_fm diaryMdArr sortOld out hE, ← hE, hfe]
    exact (h3 hE).symm
  · rw [merge_eq_fm diaryMdArr sortOld out (extractFrontMatter out) rfl
      (str_length_ne_zero_of_ne _ hE), hfe]
    exact (h2 hE).symm

theorem no_second_of_extractFM_empty (data : String) (rest : List String)
    (hsplit : splitLines data = "---" :: rest)
    (hE : extractFrontMatter data = "") : "---" ∉ rest := by
  intro hmem
  rcases hfb : findBlock rest with _ | ⟨m, a⟩
  · exact not_mem_of_findBlock_none rest hfb hmem
  · obtain ⟨e1, e2⟩ := findBlock_eq_some rest m a hfb
    have := extractFM_of_block data m a (by rw [hsplit, e1]) e2
    rw [this] at hE
    exact str_append_newline_ne_empty _ hE

/-- Claim C1 (amended): the merge is idempotent on any diaryMdArr whose
lines contain no newline character and are not the metadata delimiter
line.  Re-running the merge with the same rendered lines on the output of
a first merge reproduces that output exactly. -/
theorem merge_idempotent_of_newlineFree (diaryMdArr : List String)
    (sortOld : Bool) (data : String)
    (H : ∀ l ∈ diaryMdArr, '\n' ∉ l.data ∧ l ≠ "---") :
    merge diaryMdArr sortOld (merge diaryMdArr sortOld data)
      = merge diaryMdArr sortOld data := by
  rcases extractFM_cases data with hE | ⟨mid, after, hsplit, hmid, hE⟩
  · -- no metadata block in the initial contents
    have hbody_ne : splitLines data ≠ [] := splitLines_ne_nil data
    have hout : merge diaryMdArr sortOld data
        = joinLines (finalEntries "" diaryMdArr sortOld data) :=
      merge_eq_no_fm diaryMdArr sortOld data hE
    have hfin_eq : finalEntries "" diaryMdArr sortOld data
        = if sortOld then splitLines data ++ newEntries "" diaryMdArr data
          else newEntries "" diaryMdArr data ++ splitLines data := by
      unfold finalEntries
      rw [diaryContentsArr_empty_fm]
    by_cases hnil : newEntries "" diaryMdArr data = []
    · -- nothing new: the merge returns the input contents unchanged
      have hfix : merge diaryMdArr sortOld data = data := by
        rw [hout, hfin_eq, hnil]
        cases sortOld <;> simp [joinLines_splitLines]
      rw [hfix]
      exact hfix
    · have hfin_ne : finalEntries "" diaryMdArr sortOld data ≠ [] := by
        rw [hfin_eq]
        cases sortOld <;> simp [hbody_ne, hnil]
      have hfin_clean : ∀ p ∈ finalEntries "" diaryMdArr sortOld data,
          '\n' ∉ p.data := by
        intro p hp
        rw [hfin_eq] at hp
        have hor : p ∈ splitLines data ∨ p ∈ newEntries "" diaryMdArr data := by
          cases sortOld <;> simp at hp <;> tauto
        rcases hor with h | h
        · exact mem_splitLines_no_newline data p h
        · exact (H p ((newEntries_sublist "" diaryMdArr data).subset h)).1
      have hsplit_out : splitLines (merge diaryMdArr sortOld data)
          = finalEntries "" diaryMdArr sortOld data := by
        rw [hout]
        exact splitLines_joinLines _ hfin_ne hfin_clean
      have hEout : extractFrontMatter (merge diaryMdArr sortOld data) = "" := by
        rcases hb : splitLines data with _ | ⟨b0, bt⟩
        · exact absurd hb hbody_ne
        cases sortOld with
        | true =>
          have hfe2 : finalEntries "" diaryMdArr true data
              = b0 :: (bt ++ newEntries "" diaryMdArr data) := by
            rw [hfin_eq, if_pos rfl, hb]
            rfl
          by_cases hb0 : b0 = "---"
          · have hsd : splitLines data = "---" :: bt := by rw [hb, hb0]
            have hbt : "---" ∉ bt := no_second_of_extractFM_empty data bt hsd hE
            have hne2 : "---" ∉ newEntries "" diaryMdArr data := fun hmem =>
              (H _ ((newEntries_sublist "" diaryMdArr data).subset hmem)).2 rfl
            apply extractFM_empty_of_no_second _
              (bt ++ newEntries "" diaryMdArr data)
            · rw [hsplit_out, hfe2, hb0]
            · simp [hbt, hne2]
          · apply extractFM_empty_of_first_ne _ b0
              (bt ++ newEntries "" diaryMdArr data)
            · rw [hsplit_out, hfe2]
            · exact hb0
        | false =>
          rcases hn : newEntries "" diaryMdArr data with _ | ⟨n0, nt⟩
          · exact absurd hn hnil
          have hfe2 : finalEntries "" diaryMdArr false data
              = n0 :: (nt ++ splitLines data) := by
            rw [hfin_eq, if_neg (by simp), hn]
            rfl
          apply extractFM_empty_of_first_ne _ n0 (nt ++ splitLines data)
          · rw [hsplit_out, hfe2]
          · exact (H n0 ((newEntries_sublist "" diaryMdArr data).subset
              (by rw [hn]; exact List.mem_cons_self n0 nt))).2
      apply merge_fixed
      · intro l hl
        rw [hEout, diaryContentsArr_empty_fm, hsplit_out]
        have := mem_finalEntries_of_mem "" diaryMdArr sortOld data l hl
        rw [← hE]
        rw [hE]
        exact this
      · intro hc
        exact absurd hEout hc
      · intro _
        rw [hEout, diaryContentsArr_empty_fm]
        exact (joinLines_splitLines _).symm
  · -- metadata block present in the initial contents
    have hlen : (extractFrontMatter data).length ≠ 0 := by
      rw [hE]
      exact length_append_newline_ne _
    have hdca : diaryContentsArr (extractFrontMatter data) data = after := by
      unfold diaryContentsArr
      rw [if_pos hlen, hsplit]
      exact skipFM_block mid after hmid
    have hout : merge diaryMdArr sortOld data
        = extractFrontMatter data ++ joinLines
            (finalEntries (extractFrontMatter data) diaryMdArr sortOld data) :=
      merge_eq_fm diaryMdArr sortOld data _ rfl hlen
    have hB_ne : (("---" :: mid) ++ ["---"] : List String) ≠ [] := by simp
    have hB_clean : ∀ p ∈ ("---" :: mid) ++ ["---"], '\n' ∉ p.data := by
      intro p hp
      rcases List.mem_append.mp hp with hp | hp
      · rcases List.mem_cons.mp hp with rfl | hp
        · decide
        · apply mem_splitLines_no_newline data
          rw [hsplit]
          exact List.mem_cons_of_mem _ (List.mem_append_left _ hp)
      · rcases List.mem_cons.mp hp with rfl | hp
        · decide
        · simp at hp
    have hafter_clean : ∀ p ∈ after, '\n' ∉ p.data := by
      intro p hp
      apply mem_splitLines_no_newline data
      rw [hsplit]
      exact List.mem_cons_of_mem _
        (List.mem_append_right _ (List.mem_cons_of_mem _ hp))
    have hfin_eq : finalEntries (extractFrontMatter data) diaryMdArr sortOld data
        = if sortOld then
            after ++ newEntries (extractFrontMatter data) diaryMdArr data
          else newEntries (extractFrontMatter data) diaryMdArr data ++ after := by
      unfold finalEntries
      rw [hdca]
    have hfin_clean :
        ∀ p ∈ finalEntries (extractFrontMatter data) diaryMdArr sortOld data,
          '\n' ∉ p.data := by
      intro p hp
      rw [hfin_eq] at hp
      have hor : p ∈ after ∨
          p ∈ newEntries (extractFrontMatter data) diaryMdArr data := by
        cases sortOld <;> simp at hp <;> tauto
      rcases hor with h | h
      · exact hafter_clean p h
      · exact (H p ((newEntries_sublist _ diaryMdArr data).subset h)).1
    by_cases hfnil :
        finalEntries (extractFrontMatter data) diaryMdArr sortOld data = []
    · have hae : after = [] ∧
          newEntries (extractFrontMatter data) diaryMdArr data = [] := by
        rw [hfin_eq] at hfnil
        cases sortOld with
        | true =>
          simp [List.append_eq_nil] at hfnil
          exact hfnil
        | false =>
          simp [List.append_eq_nil] at hfnil
          exact ⟨hfnil.2, hfnil.1⟩
      have hNnil : diaryMdArr = [] := by
        have h1 := hae.2
        unfold newEntries at h1
        rw [hdca, hae.1] at h1
        rw [List.filter_eq_nil_iff] at h1
        apply List.eq_nil_iff_forall_not_mem.mpr
        intro a ha
        exact h1 a ha (by simp)
      have hout2 : merge diaryMdArr sortOld data = extractFrontMatter data := by
        rw [hout, hfnil]
        have hJ : joinLines ([] : List String) = "" := rfl
        rw [hJ, str_append_empty]
      have hsplit_out : splitLines (merge diaryMdArr sortOld data)
          = ("---" :: mid) ++ ["---"] ++ [""] := by
        rw [hout2, hE]
        have hJ : joinLines (("---" :: mid) ++ ["---"] ++ [""])
            = joinLines (("---" :: mid) ++ ["---"]) ++ "\n" := by
          rw [joinLines_append (("---" :: mid) ++ ["---"]) [""] hB_ne (by simp)]
          have hJ2 : joinLines ([""] : List String) = "" := rfl
          rw [hJ2, str_append_empty]
        rw [← hJ]
        apply splitLines_joinLines
        · simp
        · intro p hp
          rcases List.mem_append.mp hp with hp | hp
          · exact hB_clean p hp
          · simp at hp
            subst hp
            decide
      have hshape : ("---" :: mid) ++ ["---"] ++ [""]
          = "---" :: (mid ++ "---" :: [""]) := by simp
      have hEout : extractFrontMatter (merge diaryMdArr sortOld data)
          = extractFrontMatter data := by
        rw [hE]
        exact extractFM_of_block _ mid [""] (by rw [hsplit_out, hshape]) hmid
      apply merge_fixed
      · intro l hl
        rw [hNnil] at hl
        simp at hl
      · intro _
        rw [hEout]
        have hdca_out : diaryContentsArr (extractFrontMatter data)
            (merge diaryMdArr sortOld data) = [""] := by
          unfold diaryContentsArr
          rw [if_pos hlen, hsplit_out, hshape]
          exact skipFM_block mid [""] hmid
        rw [hdca_out, hout2]
        have hJ : joinLines ([""] : List String) = "" := rfl
        rw [hJ, str_append_empty]
      · intro hc
        rw [hEout, hE] at hc
        exact absurd hc (str_append_newline_ne_empty _)
    · set F := finalEntries (extractFrontMatter data) diaryMdArr sortOld data
        with hF
      have hout2 : merge diaryMdArr sortOld data
          = joinLines (("---" :: mid) ++ ["---"] ++ F) := by
        rw [hout, hE]
        rw [joinLines_append (("---" :: mid) ++ ["---"]) F hB_ne hfnil]
      have hsplit_out : splitLines (merge diaryMdArr sortOld data)
          = ("---" :: mid) ++ ["---"] ++ F := by
        rw [hout2]
        apply splitLines_joinLines
        · simp
        · intro p hp
          rcases List.mem_append.mp hp with hp | hp
          · exact hB_clean p hp
          · exact hfin_clean p hp
      have hshape : ("---" :: mid) ++ ["---"] ++ F
          = "---" :: (mid ++ "---" :: F) := by
        simp
      have hEout : extractFrontMatter (merge diaryMdArr sortOld data)
          = extractFrontMatter data := by
        rw [hE]
        exact extractFM_of_block _ mid F (by rw [hsplit_out, hshape]) hmid
      have hdca_out : diaryContentsArr (extractFrontMatter data)
          (merge diaryMdArr sortOld data) = F := by
        unfold diaryContentsArr
        rw [if_pos hlen, hsplit_out, hshape]
        exact skipFM_block mid F hmid
      apply merge_fixed
      · intro l hl
        rw [hEout, hdca_out, hF]
        exact mem_finalEntries_of_mem _ diaryMdArr sortOld data l hl
      · intro _
        rw [hEout, hdca_out]
        exact hout
      · intro hc
        rw [hEout, hE] at hc
        exact absurd hc (str_append_newline_ne_empty _)

/-- Claim C1 as stated is false: with a rendered line containing an
embedded newline (which the ListReview and Callout styles produce), the
second merge adds the line again, because the re-split file never contains
the multi-line string verbatim. -/
theorem merge_not_idempotent_counterexample :
    merge ["A\nB"] true "X" = "X\nA\nB" ∧
    merge ["A\nB"] true (merge ["A\nB"] true "X") = "X\nA\nB\nA\nB" ∧
    merge ["A\nB"] true (merge ["A\nB"] true "X") ≠ merge ["A\nB"] true "X" :=
  ⟨by decide, by decide, by decide⟩

/-- Witness for the amended C1 at newline-free rendered lines. -/
theorem merge_idempotent_of_newlineFree_witness :
    merge ["L1"] true (merge ["L1"] true "L0") = merge ["L1"] true "L0" :=
  merge_idempotent_of_newlineFree ["L1"] true "L0" (by decide)

/-! Metadata-block preservation. -/

/-- The metadata block of a file: the lines from the first delimiter
through the second, joined by newline, exactly as they stand in the file;
empty when the file has no block. -/
def metadataBlock (data : String) : String :=
  match extractFMList (splitLines data) with
  | some block => joinLines block
  | none => ""

theorem extractFMList_of_block (mid after : List String) (hmid : "---" ∉ mid) :
    extractFMList ("---" :: (mid ++ "---" :: after))
      = some (("---" :: mid) ++ ["---"]) := by
  simp [extractFMList, findBlock_append mid after hmid]

/-- Claim C3: for every target file beginning with a delimited metadata
block, the block is byte-identical in the merge output and remains first:
the block's characters are a prefix of the input file and of the merge
result. -/
theorem metadata_block_preserved (diaryMdArr : List String) (sortOld : Bool)
    (data : String) (h : extractFrontMatter data ≠ "") :
    (metadataBlock data).data <+: data.data ∧
    (metadataBlock data).data <+: (merge diaryMdArr sortOld data).data := by
  rcases extractFM_cases data with hE | ⟨mid, after, hsplit, hmid, hE⟩
  · exact absurd hE h
  have hmb : metadataBlock data = joinLines (("---" :: mid) ++ ["---"]) := by
    rw [metadataBlock, hsplit, extractFMList_of_block mid after hmid]
  have hdata : data = joinLines ((("---" :: mid) ++ ["---"]) ++ after) := by
    conv_lhs => rw [← joinLines_splitLines data, hsplit]
    congr 1
    simp
  constructor
  · cases after with
    | nil =>
      refine ⟨[], ?_⟩
      rw [List.append_nil, hmb, hdata, List.append_nil]
    | cons a0 as0 =>
      have hd2 : data = metadataBlock data ++ ("\n" ++ joinLines (a0 :: as0)) := by
        rw [hmb, hdata, joinLines_append _ _ (by simp) (by simp),
          str_append_assoc]
      refine ⟨("\n" ++ joinLines (a0 :: as0)).data, ?_⟩
      conv_rhs => rw [hd2]
      simp [data_append]
  · have hlen : (extractFrontMatter data).length ≠ 0 := by
      rw [hE]
      exact length_append_newline_ne _
    have hd2 : merge diaryMdArr sortOld data
        = metadataBlock data ++ ("\n" ++ joinLines
            (finalEntries (extractFrontMatter data) diaryMdArr sortOld data)) := by
      rw [merge_eq_fm diaryMdArr sortOld data _ rfl hlen, hE, hmb,
        str_append_assoc]
    refine ⟨("\n" ++ joinLines
      (finalEntries (extractFrontMatter data) diaryMdArr sortOld data)).data, ?_⟩
    rw [hd2]
    simp [data_append]

/-- Witness for C3, spec Scenario C: a file with front matter merged with
["L1"] under descending sort keeps the block verbatim and first, and the
full output matches the spec's expected contents. -/
theorem metadata_block_preserved_witness :
    ((metadataBlock "---\nkey: v\n---\nL0").data <+:
        ("---\nkey: v\n---\nL0" : String).data ∧
      (metadataBlock "---\nkey: v\n---\nL0").data <+:
        (merge ["L1"] false "---\nkey: v\n---\nL0").data) ∧
    merge ["L1"] false "---\nkey: v\n---\nL0" = "---\nkey: v\n---\nL1\nL0" :=
  ⟨metadata_block_preserved ["L1"] false "---\nkey: v\n---\nL0" (by decide),
    by decide⟩

/-! The entry renderer: review-text extraction, starParser and printOut.
The host-level pieces (DOM parsing of the description into paragraph text
contents and the poster img element, decodeHtmlEntities on the film title,
moment date formatting) are taken as already-extracted fields of the
item. -/

/-- Modelled from the spec: JavaScript String.prototype.trim, stripping
leading and trailing whitespace (used only to drop blank paragraphs). -/
def jsTrim (s : String) : String :=
  String.mk
    (((s.data.dropWhile Char.isWhitespace).reverse.dropWhile
      Char.isWhitespace).reverse)

/-- Substring test, as String.prototype.contains on the joined review
text. -/
def containsSubAux (needle : List Char) : List Char → Bool
  | [] => needle.isEmpty
  | c :: rest => needle.isPrefixOf (c :: rest) || containsSubAux needle rest

def containsSub (hay needle : String) : Bool :=
  containsSubAux needle.data hay.data

/-- Model of Array.prototype.join with an arbitrary separator string. -/
def joinStrs (sep : String) : List String → String
  | [] => ""
  | [x] => x
  | x :: y :: xs => x ++ sep ++ joinStrs sep (y :: xs)

/-- The joined review text in printOut: paragraph texts with blank ones
dropped, joined by the blockquote separator. -/
def reviewJoin (paragraphs : List String) : String :=
  joinStrs "\r > \r > " (paragraphs.filter (fun t => jsTrim t != ""))

/-- Model of the reviewText computation in printOut: the joined paragraph
texts, nulled out entirely when the join contains "Watched on". -/
def reviewTextOf (paragraphs : List String) : Option String :=
  if containsSub (reviewJoin paragraphs) "Watched on" then none
  else some (reviewJoin paragraphs)

/-- The extraction as the spec describes it, for comparison: exclude only
the paragraphs that are watched-on notices, join the remaining ones, and
yield no review text when nothing remains. -/
def reviewTextSpecDescribed (paragraphs : List String) : Option String :=
  let kept := (paragraphs.filter (fun t => jsTrim t != "")).filter
    (fun t => !(containsSub t "Watched on"))
  if joinStrs "\r > \r > " kept = "" then none
  else some (joinStrs "\r > \r > " kept)

inductive CalloutStyle where
  | list
  | listReview
  | callout
  | calloutPoster

structure RenderSettings where
  callout : CalloutStyle
  stars : Nat
  addReferenceId : Bool

structure RenderItem where
  paragraphs : List String
  imgSrc : Option String
  filmTitle : String
  link : String
  watchedDate : String
  memberRating : Option ℚ
  guid : String

def strRepeat (s : String) : Nat → String
  | 0 => ""
  | n + 1 => s ++ strRepeat s n

/-- The half-star marker: rating % 1 is truthy exactly when the rating is
not an integer. -/
def halfNote (r : ℚ) : String := if r.den = 1 then "" else "½"

/-- Modelled decimal printing of the JavaScript number interpolation for
the whole- and half-star rating values the feed produces. -/
def numStr (r : ℚ) : String :=
  if r.den = 1 then toString r.num
  else toString (r.num / 2) ++ ".5"

/-- Model of starParser: the empty string when the rating is undefined,
otherwise a parenthesised star text chosen by the stars setting (cases 1
and 2 are the glyph styles, every other value takes the default "N stars"
branch). -/
def starParser (rating : Option ℚ) (star : Nat) : String :=
  match rating with
  | none => ""
  | some r =>
    if star = 1 then "(" ++ strRepeat "★" r.floor.toNat ++ halfNote r ++ ")"
    else if star = 2 then "(" ++ strRepeat "⭐" r.floor.toNat ++ halfNote r ++ ")"
    else "(" ++ numStr r ++ " stars)"

/-- The third hyphen-separated segment of the guid; JavaScript renders a
missing index as the text "undefined". -/
def guidSegment (guid : String) : String :=
  ((splitCh '-' guid.data).map String.mk).getD 2 "undefined"

/-- JavaScript truthiness of the reviewText value: null and the empty
string are falsy. -/
def optTruthy : Option String → Bool
  | none => false
  | some s => s != ""

def optStr : Option String → String
  | none => ""
  | some s => s

/-- Model of printOut: one rendered line (or block) per feed item,
switching on the display style. -/
def printOut (settings : RenderSettings) (item : RenderItem) : String :=
  let reviewText := reviewTextOf item.paragraphs
  let stars := starParser item.memberRating settings.stars
  let reference :=
    if settings.addReferenceId then " ^letterboxd" ++ guidSegment item.guid
    else ""
  match settings.callout with
  | CalloutStyle.list =>
    "- " ++ (if stars.length ≠ 0 then
        "Reviewed [" ++ item.filmTitle ++ "](" ++ item.link ++ ") " ++ stars
      else "Watched [" ++ item.filmTitle ++ "](" ++ item.link ++ ")")
      ++ " on [[" ++ item.watchedDate ++ "]]"
  | CalloutStyle.listReview =>
    "- " ++ (if optTruthy reviewText then "Reviewed " else "Watched ")
      ++ " [" ++ item.filmTitle ++ "](" ++ item.link ++ ") " ++ stars
      ++ " on [[" ++ item.watchedDate ++ "]] "
      ++ (if optTruthy reviewText then "\r >" ++ optStr reviewText ++ "\n"
          else "")
  | CalloutStyle.callout =>
    "> [!letterboxd]+ "
      ++ (if item.memberRating.isSome || optTruthy reviewText then "Review: "
          else "Watched: ")
      ++ " [" ++ item.filmTitle ++ "](" ++ item.link ++ ") " ++ stars
      ++ " - [[" ++ item.watchedDate ++ "]] \r> "
      ++ (if optTruthy reviewText then optStr reviewText else "")
      ++ reference ++ "\n"
  | CalloutStyle.calloutPoster =>
    "> [!letterboxd]+ "
      ++ (if item.memberRating.isSome || optTruthy reviewText then "Review: "
          else "Watched: ")
      ++ " [" ++ item.filmTitle ++ "](" ++ item.link ++ ") " ++ stars
      ++ " - [[" ++ item.watchedDate ++ "]] \r> "
      ++ (if optTruthy reviewText then
            match item.imgSrc with
            | some i => "![" ++ item.filmTitle ++ "|200](" ++ i ++ ") \r> "
                ++ optStr reviewText
            | none => optStr reviewText
          else "")
      ++ reference ++ "\n"

/-- Model of the older list renderer (earlier main file revision): a
Gave-stars line when a rating is present, a Watched line otherwise. -/
def printOutLegacy (item : RenderItem) : String :=
  match item.memberRating with
  | some r =>
    "- Gave [" ++ numStr r ++ " stars to " ++ item.filmTitle ++ "]("
      ++ item.link ++ ") on [[" ++ item.watchedDate ++ "]]"
  | none =>
    "- Watched [" ++ item.filmTitle ++ "](" ++ item.link ++ ") on [["
      ++ item.watchedDate ++ "]]"

theorem append_ne_empty_left (a b : String) (h : a ≠ "") : a ++ b ≠ "" := by
  intro hh
  apply h
  apply str_ext
  have h2 := congrArg String.data hh
  rw [data_append] at h2
  have e2 : ("" : String).data = [] := rfl
  rw [e2] at h2
  rw [e2]
  exact (List.append_eq_nil.mp h2).1

/-- Claim C7 as stated is false: the code does not exclude only the
boilerplate paragraph.  With paragraphs ["Watched on January 1, 2024",
"Great movie"] the code nulls the whole review text, while the described
per-paragraph exclusion would keep "Great movie". -/
theorem review_text_counterexample :
    reviewTextOf ["Watched on January 1, 2024", "Great movie"] = none ∧
    reviewTextSpecDescribed ["Watched on January 1, 2024", "Great movie"]
      = some "Great movie" :=
  ⟨by decide, by decide⟩

/-- Claim C7 (amended): the renderer joins all non-blank paragraph texts;
whenever the joined text contains "Watched on" anywhere, the entire review
text is discarded and the ListReview entry is rendered as Watched with no
review text appended; when the joined text does not contain it, the whole
join is the review text. -/
theorem review_text_whole_discard (cfg : RenderSettings) (item : RenderItem)
    (hc : cfg.callout = CalloutStyle.listReview) :
    (containsSub (reviewJoin item.paragraphs) "Watched on" = true →
      reviewTextOf item.paragraphs = none ∧
      printOut cfg item = "- " ++ "Watched " ++ " [" ++ item.filmTitle
        ++ "](" ++ item.link ++ ") " ++ starParser item.memberRating cfg.stars
        ++ " on [[" ++ item.watchedDate ++ "]] ") ∧
    (containsSub (reviewJoin item.paragraphs) "Watched on" = false →
      reviewTextOf item.paragraphs = some (reviewJoin item.paragraphs)) := by
  constructor
  · intro h
    have hrt : reviewTextOf item.paragraphs = none := by
      simp [reviewTextOf, h]
    refine ⟨hrt, ?_⟩
    simp [printOut, hc, hrt, optTruthy, str_append_empty]
  · intro h
    simp [reviewTextOf, h]

/-- Witness for amended C7, spec Scenario E: an entry whose only paragraph
is a watched-on notice renders as Watched with no review text. -/
theorem review_text_whole_discard_witness :
    reviewTextOf ["Watched on January 1, 2024"] = none ∧
    printOut ⟨CalloutStyle.listReview, 0, false⟩
        ⟨["Watched on January 1, 2024"], none, "Film", "lnk", "2024-01-01",
          none, "letterboxd-review-1"⟩
      = "- Watched  [Film](lnk)  on [[2024-01-01]] " := by
  have h := (review_text_whole_discard ⟨CalloutStyle.listReview, 0, false⟩
    ⟨["Watched on January 1, 2024"], none, "Film", "lnk", "2024-01-01",
      none, "letterboxd-review-1"⟩ rfl).1 (by decide)
  exact ⟨h.1, h.2.trans (by decide)⟩

/-- Claim C9: an entry with no rating renders in the List style as a
Watched line with empty star text, never a Gave/Reviewed line; the star
text is non-empty exactly when a rating is present; and the older list
renderer likewise produces its Watched line. -/
theorem unrated_renders_watched (cfg : RenderSettings) (item : RenderItem)
    (hc : cfg.callout = CalloutStyle.list) (hr : item.memberRating = none) :
    printOut cfg item = "- " ++ ("Watched [" ++ item.filmTitle ++ "]("
        ++ item.link ++ ")") ++ " on [[" ++ item.watchedDate ++ "]]" ∧
    starParser item.memberRating cfg.stars = "" ∧
    (∀ q : ℚ, starParser (some q) cfg.stars ≠ "") ∧
    printOutLegacy item = "- Watched [" ++ item.filmTitle ++ "]("
        ++ item.link ++ ") on [[" ++ item.watchedDate ++ "]]" := by
  have hsp : starParser item.memberRating cfg.stars = "" := by
    rw [hr]
    rfl
  refine ⟨?_, hsp, ?_, ?_⟩
  · simp [printOut, hc, hsp, length_empty_str]
  · intro q
    simp only [starParser]
    by_cases h1 : cfg.stars = 1
    · rw [if_pos h1]
      exact append_ne_empty_left _ _
        (append_ne_empty_left _ _ (append_ne_empty_left _ _ (by decide)))
    · rw [if_neg h1]
      by_cases h2 : cfg.stars = 2
      · rw [if_pos h2]
        exact append_ne_empty_left _ _
          (append_ne_empty_left _ _ (append_ne_empty_left _ _ (by decide)))
      · rw [if_neg h2]
        exact append_ne_empty_left _ _
          (append_ne_empty_left _ _ (by decide))
  · simp [printOutLegacy, hr]

/-- Witness for C9 at a concrete unrated entry. -/
theorem unrated_renders_watched_witness :
    printOut ⟨CalloutStyle.list, 0, false⟩
        ⟨[], none, "Film", "lnk", "2024-04-04", none, "letterboxd-review-1"⟩
      = "- Watched [Film](lnk) on [[2024-04-04]]" ∧
    starParser none 0 = "" := by
  have h := unrated_renders_watched ⟨CalloutStyle.list, 0, false⟩
    ⟨[], none, "Film", "lnk", "2024-04-04", none, "letterboxd-review-1"⟩
    rfl rfl
  exact ⟨h.1.trans (by decide), h.2.1⟩

/-! The sync command's username guard and the absent-file creation
branch. -/

inductive SyncAction where
  | aborted : String → SyncAction
  | request : String → SyncAction

/-- Model of the synchronous prefix of the sync command callback, up to
the point of the network request: the username guard either throws
(aborting before any request) or proceeds to request the account's RSS
url.  The second component is the target file state; no file operation
runs before the request in either branch, so it is carried unchanged. -/
def syncCommand (username : String) (targetFile : Option String) :
    SyncAction × Option String :=
  if username = "" then
    (SyncAction.aborted "Cannot get data for blank username", targetFile)
  else
    (SyncAction.request ("https://letterboxd.com/" ++ username ++ "/rss/"),
      targetFile)

/-- Claim C8: with a blank username the sync command raises the blank
username error immediately, no network request is issued, and the target
file is left unchanged. -/
theorem blank_username_aborts (username : String) (targetFile : Option String)
    (h : username = "") :
    syncCommand username targetFile
      = (SyncAction.aborted "Cannot get data for blank username", targetFile) ∧
    ∀ url, (syncCommand username targetFile).1 ≠ SyncAction.request url := by
  subst h
  refine ⟨by simp [syncCommand], ?_⟩
  intro url
  simp [syncCommand]

/-- Witness for C8 with the default empty username and some existing
diary file. -/
theorem blank_username_aborts_witness :
    syncCommand "" (some "diary contents")
      = (SyncAction.aborted "Cannot get data for blank username",
          some "diary contents") :=
  (blank_username_aborts "" (some "diary contents") rfl).1

/-- Model of path.split('/') in the absent-file branch. -/
def splitSlash (s : String) : List String :=
  (splitCh '/' s.data).map String.mk

def joinSlash (xs : List String) : String :=
  String.mk (joinCh '/' (xs.map String.data))

/-- Model of the folder-creation guard in the absent-file branch: split
the configured path on '/', pop the file segment, and call createFolder on
the joined remainder only when more than one segment remains. -/
def folderPathToCreate (path : String) : Option String :=
  if ((splitSlash path).dropLast).length > 1 then
    some (joinSlash ((splitSlash path).dropLast))
  else none

/-- Model of the content handed to vault.create in the absent-file
branch. -/
def createdFileContent (diaryMdArr : List String) : String :=
  joinLines diaryMdArr

/-- Claim C6 as stated is false: for the path "A/file" the containing
folder is "A", yet the guard (more than one remaining segment) skips the
createFolder call, so no containing folder is created. -/
theorem folder_creation_counterexample :
    (splitSlash "A/file").dropLast = ["A"] ∧
    folderPathToCreate "A/file" = none :=
  ⟨by decide, by decide⟩

/-- Claim C6 (amended): when the target file is absent the written content
is exactly the rendered lines joined by newline; the containing folder
path is created only when more than one segment remains after removing
the file segment, and never for a single-segment containing folder. -/
theorem absent_file_creation (diaryMdArr : List String) (path : String) :
    createdFileContent diaryMdArr = joinLines diaryMdArr ∧
    (1 < ((splitSlash path).dropLast).length →
      folderPathToCreate path = some (joinSlash ((splitSlash path).dropLast))) ∧
    (((splitSlash path).dropLast).length ≤ 1 →
      folderPathToCreate path = none) := by
  refine ⟨rfl, ?_, ?_⟩
  · intro h
    unfold folderPathToCreate
    rw [if_pos h]
  · intro h
    unfold folderPathToCreate
    rw [if_neg (by omega : ¬((splitSlash path).dropLast).length > 1)]

/-- Witness for amended C6: spec Scenario A content plus a nested path
whose folder chain is created. -/
theorem absent_file_creation_witness :
    createdFileContent ["L1", "L2"] = "L1\nL2" ∧
    folderPathToCreate "A/B/file" = some "A/B" := by
  have h := absent_file_creation ["L1", "L2"] "A/B/file"
  exact ⟨h.1.trans (by decide), (h.2.1 (by decide)).trans (by decide)⟩

end Letterboxd
